import Mathlib

/-!
Verification of the flatty property analyzer (src/analyzer.py) against its
natural-language specification.  Python values flowing through the pipeline
are modelled by a shallow JSON embedding; fallible Python code is modelled
with Except, where an error value stands for an uncaught Python exception.
-/

set_option maxHeartbeats 1000000

/-- Model of a decoded Python JSON value (the result of json.loads). -/
inductive Json where
  | null
  | bool (b : Bool)
  | num (q : ℚ)
  | str (s : String)
  | arr (elems : List Json)
  | obj (fields : List (String × Json))

/-- Lookup of a key in a Python dict, modelled as an association list
(first match wins; dicts produced by the program never repeat keys). -/
def lookupField : List (String × Json) → String → Option Json
  | [], _ => none
  | kv :: rest, k => if kv.1 = k then some kv.2 else lookupField rest k

/-- Python dict assignment d[k] = v: replaces the value when the key is
present, appends the binding otherwise. -/
def setField (fields : List (String × Json)) (k : String) (v : Json) :
    List (String × Json) :=
  if fields.any (fun kv => kv.1 = k) then
    fields.map (fun kv => if kv.1 = k then (k, v) else kv)
  else fields ++ [(k, v)]

/-- The membership test of analyzer.py line 247: whether v.get of the vote
key yields one of the three enumerated strings. -/
def vote_is_valid (fields : List (String × Json)) : Bool :=
  match lookupField fields "vote" with
  | some (.str "YES") => true
  | some (.str "NO") => true
  | some (.str "UNCERTAIN") => true
  | _ => false

/-- Normalization of one decoded vote element (analyzer.py lines 246-249):
v.get applied to a non-dict raises AttributeError (modelled as .error);
a vote value outside the three enumerated strings is forced to UNCERTAIN. -/
def normalize_vote (v : Json) : Except String Json :=
  match v with
  | .obj fields =>
    if vote_is_valid fields then .ok (.obj fields)
    else .ok (.obj (setField fields "vote" (.str "UNCERTAIN")))
  | _ => .error "AttributeError"

/-- Synthetic vote appended when the model returned fewer elements than
expected (analyzer.py lines 252-258). -/
def missing_vote (i : ℕ) : Json :=
  .obj [("property_num", .num i), ("vote", .str "UNCERTAIN"),
        ("confidence", .num 0),
        ("summary", .str "No response from agent for this property")]

/-- Synthetic vote produced for every slot on total JSON decode failure
(analyzer.py lines 262-272). -/
def parse_fail_vote (i : ℕ) : Json :=
  .obj [("property_num", .num i), ("vote", .str "UNCERTAIN"),
        ("confidence", .num 0),
        ("summary", .str "Failed to parse agent response")]

/-- Padding loop of analyzer.py lines 252-258: appends missing votes,
numbered from the current length plus one, until the expected count. -/
def pad_votes (result : List Json) (expected : ℕ) : List Json :=
  result ++ (List.range (expected - result.length)).map
    (fun k => missing_vote (result.length + k + 1))

/-- The list a decoded JSON value is coerced to before normalization
(analyzer.py lines 241-242: a decoded non-list becomes a one-element
list). -/
def coerced_list (j : Json) : List Json :=
  match j with
  | .arr l => l
  | v => [v]

/-- The validation loop of analyzer.py lines 245-249: normalizes each
element in order, and an exception raised on any element aborts the
whole loop. -/
def normalize_all : List Json → Except String (List Json)
  | [] => .ok []
  | v :: rest =>
    match normalize_vote v with
    | .error e => .error e
    | .ok w =>
      match normalize_all rest with
      | .error e => .error e
      | .ok ws => .ok (w :: ws)

/-- parse_batch_votes (analyzer.py lines 229-272).  The code first strips
optional code fences (a pure string operation that cannot raise) and then
calls json.loads; that decode stage is modelled by the decoded argument:
none stands for a json.JSONDecodeError on the raw reply, some j for a
successful decode.  A decoded non-list is coerced to a one-element list;
each element is normalized; the list is padded and truncated to the
expected count.  An .error result models an uncaught Python exception. -/
def parse_batch_votes (decoded : Option Json) (expected_count : ℕ) :
    Except String (List Json) :=
  match decoded with
  | none => .ok ((List.range expected_count).map (fun i => parse_fail_vote (i + 1)))
  | some j =>
    match normalize_all (coerced_list j) with
    | .error e => .error e
    | .ok result => .ok ((pad_votes result expected_count).take expected_count)

/-- A vote record whose vote field is one of the three enumerated values. -/
def vote_enum_ok (v : Json) : Prop :=
  ∃ fields s, v = Json.obj fields ∧ lookupField fields "vote" = some (.str s) ∧
    (s = "YES" ∨ s = "NO" ∨ s = "UNCERTAIN")

/-- Count of elements of a Python list equal to a given string
(the vote_values.count calls of analyzer.py lines 320-321; Python
equality of a non-string element with a string is False). -/
def count_str (target : String) (vote_values : List Json) : ℕ :=
  vote_values.countP (fun v =>
    match v with
    | .str s => s == target
    | _ => false)

/-- Decision Policy (analyzer.py lines 323-329) on the list of vote field
values of one candidate: SKIP when every vote is NO and there is at least
one vote, or when there are at least 3 NO votes and no YES vote; SEND in
every other case. -/
def decision_of (vote_values : List Json) : String :=
  let no_count := count_str "NO" vote_values
  let yes_count := count_str "YES" vote_values
  if no_count = vote_values.length ∧ 0 < vote_values.length then "SKIP"
  else if 3 ≤ no_count ∧ yes_count = 0 then "SKIP"
  else "SEND"

/-- score_map.get of one vote value with default 0
(analyzer.py lines 331-332). -/
def score_of (v : Json) : ℕ :=
  match v with
  | .str "YES" => 2
  | .str "UNCERTAIN" => 1
  | _ => 0

/-- Python subscript d[k] on a vote record: KeyError when the key is
absent, a type failure when the record is not a dict. -/
def pyIndex (j : Json) (k : String) : Except String Json :=
  match j with
  | .obj fields =>
    match lookupField fields k with
    | some v => .ok v
    | none => .error "KeyError"
  | _ => .error "TypeError"

/-- Reading v.get of the confidence with default 0.5 followed by numeric
addition (analyzer.py line 333): a missing field contributes 0.5, a JSON
number its value, a JSON bool its numeric value, and any other value makes
the Python sum raise TypeError. -/
def pyConf (j : Json) : Except String ℚ :=
  match j with
  | .obj fields =>
    match lookupField fields "confidence" with
    | none => .ok (1 / 2)
    | some (.num q) => .ok q
    | some (.bool b) => .ok (if b then 1 else 0)
    | some _ => .error "TypeError"
  | _ => .error "AttributeError"

/-- Model of Python round(x, 2) (analyzer.py line 342).  Python rounds
exact ties to even on binary floats; this model rounds half upward.  The
difference is confined to exact ties and the claims depend only on the
bounds of the result. -/
def round2 (q : ℚ) : ℚ := (⌊q * 100 + 1 / 2⌋ : ℚ) / 100

structure BatchResult where
  property_id : String
  decision : String
  votes : List (String × Json)
  score : ℕ
  yes_count : ℕ
  no_count : ℕ
  confidence_avg : ℚ
  evaluated_at : String

/-- The vote value extraction of analyzer.py line 319 over the values of
the per-candidate vote map, in order; a KeyError on any record aborts. -/
def vote_values_of : List (String × Json) → Except String (List Json)
  | [] => .ok []
  | kv :: rest =>
    match pyIndex kv.2 "vote" with
    | .error e => .error e
    | .ok v =>
      match vote_values_of rest with
      | .error e => .error e
      | .ok vs => .ok (v :: vs)

/-- The confidence extraction of the mean computation of analyzer.py line
333 over the values of the vote map, in order; a non-numeric confidence
aborts the sum. -/
def confs_of : List (String × Json) → Except String (List ℚ)
  | [] => .ok []
  | kv :: rest =>
    match pyConf kv.2 with
    | .error e => .error e
    | .ok q =>
      match confs_of rest with
      | .error e => .error e
      | .ok qs => .ok (q :: qs)

/-- Assembly of one BatchResult (analyzer.py lines 317-344) from the vote
map of one candidate.  The vote values are read first (a subscript that
raises KeyError on a record without the key, as in the source), then the
counts, the decision, the score and the mean confidence rounded to two
decimals. -/
def aggregate_one (now : String) (prop_id : String)
    (votes : List (String × Json)) : Except String BatchResult :=
  match vote_values_of votes with
  | .error e => .error e
  | .ok vote_values =>
    match confs_of votes with
    | .error e => .error e
    | .ok confs =>
      .ok { property_id := prop_id
            decision := decision_of vote_values
            votes := votes
            score := (vote_values.map score_of).sum
            yes_count := count_str "YES" vote_values
            no_count := count_str "NO" vote_values
            confidence_avg := round2 (confs.sum / (max votes.length 1 : ℚ))
            evaluated_at := now }

structure Agent where
  name : String
  emoji : String
  order : ℕ

/-- The four registered evaluator personas (agents.py lines 38-249).  Only
the fields the orchestrator reads are carried; the long system prompts
only feed the LLM request, which is abstracted by the oracle argument of
evaluate_batch. -/
def AGENTS : List Agent :=
  [⟨"Financial Advisor", "💰", 1⟩, ⟨"Barrio Scout", "🏘️", 2⟩,
   ⟨"Building Inspector", "🔧", 3⟩, ⟨"Deal Shark", "🦈", 4⟩]

/-- Synthetic vote written for every candidate of the batch when the
evaluator call or the parse for a persona raised
(analyzer.py lines 303-311). -/
def agent_error_vote (i : ℕ) (e : String) : Json :=
  .obj [("property_num", .num i), ("vote", .str "UNCERTAIN"),
        ("confidence", .num 0), ("summary", .str ("Agent error: " ++ e))]

/-- Outcome of one call_llm round trip for one persona: .error models the
call raising, .ok none a reply that json.loads rejects, and .ok (some j) a
reply that decodes to j. -/
abbrev CallOutcome := Except String (Option Json)

/-- The per-persona column of votes for a batch of n candidates
(analyzer.py lines 293-311): the parsed votes on success, and synthesized
UNCERTAIN confidence-0 votes for every candidate of the batch when the
call or the parse raised (both are caught by the same handler). -/
def agent_column (n : ℕ) (outcome : CallOutcome) : List Json :=
  match outcome with
  | .error e => (List.range n).map (fun j => agent_error_vote (j + 1) e)
  | .ok decoded =>
    match parse_batch_votes decoded n with
    | .ok votes => votes
    | .error e => (List.range n).map (fun j => agent_error_vote (j + 1) e)

/-- The per-candidate vote map after all personas ran (analyzer.py lines
283-311): one entry per registered agent, in registration order, keyed by
the agent name.  The column always has length n, so for a candidate index
below n the getD default is unreachable. -/
def vote_map (n : ℕ) (oracle : Agent → CallOutcome) (i : ℕ) :
    List (String × Json) :=
  AGENTS.map (fun a => (a.name, (agent_column n (oracle a)).getD i .null))

/-- One candidate listing; only the fields read by the modelled functions
are carried. -/
structure Property where
  id : String
  title : String
  address : String
  scraped_at : String

/-- Result-building loop of evaluate_batch (analyzer.py lines 316-344). -/
def build_results (n : ℕ) (oracle : Agent → CallOutcome) (now : String) :
    List Property → ℕ → Except String (List BatchResult)
  | [], _ => .ok []
  | p :: rest, i =>
    match aggregate_one now p.id (vote_map n oracle i) with
    | .error e => .error e
    | .ok r =>
      match build_results n oracle now rest (i + 1) with
      | .error e => .error e
      | .ok rs => .ok (r :: rs)

/-- evaluate_batch (analyzer.py lines 279-346): runs every registered
persona over the batch (the network call and the reply decode abstracted
by the oracle), collects the per-candidate vote maps, and aggregates one
BatchResult per candidate.  An .error result models an uncaught Python
exception in the aggregation phase; the per-persona phase absorbs every
exception. -/
def evaluate_batch (batch : List Property) (oracle : Agent → CallOutcome)
    (now : String) : Except String (List BatchResult) :=
  build_results batch.length oracle now batch 0

/-- Python str.lower on one character, for the alphabet this program
compares: ASCII and Latin-1 uppercase letters map to their lowercase
forms, every other character is unchanged. -/
def pyLowerChar (c : Char) : Char :=
  if 'A' ≤ c ∧ c ≤ 'Z' then Char.ofNat (c.toNat + 32)
  else if 0xC0 ≤ c.toNat ∧ c.toNat ≤ 0xDE ∧ c.toNat ≠ 0xD7 then
    Char.ofNat (c.toNat + 32)
  else c

/-- Python str.lower, as a character list. -/
def lower (s : String) : List Char := s.data.map pyLowerChar

/-- Whether the first character list starts the second one. -/
def leadsWith : List Char → List Char → Bool
  | [], _ => true
  | _ :: _, [] => false
  | a :: as, b :: bs => a == b && leadsWith as bs

/-- Python substring membership: needle in hay. -/
def hasSub (needle : List Char) : List Char → Bool
  | [] => needle.isEmpty
  | c :: rest => leadsWith needle (c :: rest) || hasSub needle rest

/-- BLACKLISTED_ZONES (profile.py lines 20-24). -/
def BLACKLISTED_ZONES : List String :=
  ["Raval", "El Raval", "Poble Sec", "Poble-sec", "El Poble Sec",
   "El Poble-sec", "Gótico", "Gòtic", "Barri Gòtic", "Barrio Gótico"]

/-- is_blacklisted (analyzer.py lines 90-96): case-insensitive substring
match of any zone against the space-joined address and title. -/
def is_blacklisted (p : Property) : Bool :=
  BLACKLISTED_ZONES.any
    (fun zone => hasSub (lower zone) (lower (p.address ++ " " ++ p.title)))

def DAYS_TO_ANALYZE : ℚ := 4

/-- get_unanalyzed (analyzer.py lines 73-87).  The datetime library is
abstracted: parseIso models datetime.fromisoformat, returning none when it
raises ValueError, and timestamps live on the rational line measured in
days.  An already analyzed candidate is dropped; a nonempty scraped_at
that parses to a time before the cutoff is dropped; a scraped_at that
fails to parse is kept, as the source passes on the ValueError. -/
def get_unanalyzed (parseIso : String → Option ℚ) (nowTs : ℚ)
    (properties : List Property) (analyzed_ids : List String) :
    List Property :=
  properties.filter (fun p =>
    if p.id ∈ analyzed_ids then false
    else if p.scraped_at = "" then true
    else
      match parseIso p.scraped_at with
      | some t => if t < nowTs - DAYS_TO_ANALYZE then false else true
      | none => true)

/-- Empty progress record returned by load_analyzed when the file is
missing or corrupted (analyzer.py lines 57-64). -/
def empty_record : Json :=
  .obj [("analyzed_ids", .arr []), ("results", .arr []), ("last_run", .str "")]

/-- State of the progress file: none when the file does not exist,
some none when it exists but json.load raises JSONDecodeError, and
some (some j) when it decodes to j. -/
abbrev StoredFile := Option (Option Json)

/-- load_analyzed (analyzer.py lines 57-64). -/
def load_analyzed : StoredFile → Json
  | none => empty_record
  | some none => empty_record
  | some (some j) => j

/-- save_analyzed (analyzer.py lines 67-70): stamps the current time into
the last_run key and returns the JSON document written to the file; the
subscript assignment raises on a non-dict document. -/
def save_analyzed (data : Json) (now : String) : Except String Json :=
  match data with
  | .obj fields => .ok (.obj (setField fields "last_run" (.str now)))
  | _ => .error "TypeError"

/-- Insertion into the analyzed-ids set (a Python set of id strings,
modelled as a duplicate-free list). -/
def addId (ids : List String) (i : String) : List String :=
  if i ∈ ids then ids else ids ++ [i]

/-- BATCH_SIZE grouping of the worklist (analyzer.py lines 43 and
559-560). -/
def chunk5 : List Property → List (List Property)
  | [] => []
  | p :: rest => ((p :: rest).take 5) :: chunk5 ((p :: rest).drop 5)
termination_by l => l.length
decreasing_by
  simp only [List.length_drop, List.length_cons]
  omega

/-- Batch loop of main (analyzer.py lines 559-582): evaluates each batch,
appends the results, adds the evaluated ids, and saves after every batch;
oracle b a is the call outcome of persona a on batch number b. -/
def run_batches (oracle : ℕ → Agent → CallOutcome) (now : String) :
    List (List Property) → ℕ → List String → List BatchResult →
    Except String (List String × List BatchResult)
  | [], _, ids, results => .ok (ids, results)
  | b :: rest, k, ids, results =>
    match evaluate_batch b (oracle k) now with
    | .error e => .error e
    | .ok rs =>
      run_batches oracle now rest (k + 1)
        (rs.foldl (fun acc r => addId acc r.property_id) ids) (results ++ rs)

structure RunOutcome where
  analyzed_ids : List String
  saved : Option (List String × List BatchResult)
  batches : List (List Property)
  new_results : List BatchResult

/-- Core of main (analyzer.py lines 526-587) after the provider
configuration check: intake filtering, blacklist exclusion, batch loop and
persistence.  saved is the content of the last save_analyzed call of the
run, none when the run returned before evaluating anything: in that
early-return path nothing is written (analyzer.py lines 545-547).
new_results are the results produced by this run; the prior results
results0 are prepended in every save as in the source.  Notifications are
outside the model. -/
def run_main (properties : List Property) (ids0 : List String)
    (results0 : List BatchResult) (oracle : ℕ → Agent → CallOutcome)
    (parseIso : String → Option ℚ) (nowTs : ℚ) (now : String) :
    Except String RunOutcome :=
  let to_analyze0 := get_unanalyzed parseIso nowTs properties ids0
  let blacklisted := to_analyze0.filter (fun p => is_blacklisted p)
  let to_analyze := to_analyze0.filter (fun p => !(is_blacklisted p))
  let ids1 := blacklisted.foldl (fun acc p => addId acc p.id) ids0
  if to_analyze.isEmpty then
    .ok { analyzed_ids := ids1, saved := none, batches := [], new_results := [] }
  else
    match run_batches oracle now (chunk5 to_analyze) 0 ids1 [] with
    | .error e => .error e
    | .ok (idsF, resultsF) =>
      .ok { analyzed_ids := idsF, saved := some (idsF, results0 ++ resultsF),
            batches := chunk5 to_analyze, new_results := resultsF }

/-- The block separator of the consolidated report (analyzer.py lines 431
and 497). -/
def SEPARATOR : String := "\n\n━━━━━━━━━━━━\n\n"

/-- Scanner of Python str.split for a nonempty separator: at each
position, a match of the separator closes the accumulated part and
restarts after it.  The emptiness guard only makes the recursion
well-founded; Python raises on an empty separator. -/
def py_split_go (sep : List Char) : List Char → List Char → List (List Char)
  | [], acc => [acc]
  | c :: rest, acc =>
    if h : sep ≠ [] ∧ leadsWith sep (c :: rest) then
      acc :: py_split_go sep ((c :: rest).drop sep.length) []
    else
      py_split_go sep rest (acc ++ [c])
termination_by s _ => s.length
decreasing_by
  · have hpos : 0 < sep.length := List.length_pos.mpr h.1
    simp only [List.length_drop, List.length_cons]
    omega
  · simp only [List.length_cons]
    omega

/-- Python text.split(sep). -/
def py_split (sep : String) (text : String) : List String :=
  (py_split_go sep.data text.data []).map (fun cs => String.mk cs)

/-- Accumulation loop of the message splitter (analyzer.py lines 434-444):
greedy packing of parts into chunks, a part is never broken, and a chunk
in progress is flushed when appending the next part would overflow. -/
def split_loop (max_len : ℕ) : List String → String → List String
  | [], current => if current = "" then [] else [current]
  | part :: rest, current =>
    let candidate := if current = "" then part else current ++ SEPARATOR ++ part
    if max_len < candidate.length ∧ current ≠ "" then
      current :: split_loop max_len rest part
    else
      split_loop max_len rest candidate

/-- The message splitter (analyzer.py lines 426-446, spelled with a
leading underscore in the source): returns the text whole when it fits,
otherwise splits it at the separator and packs greedy chunks. -/
def split_message (text : String) (max_len : ℕ) : List String :=
  if text.length ≤ max_len then [text]
  else split_loop max_len (py_split SEPARATOR text) ""

/-- The report text assembled from whole item blocks joined by the fixed
separator (analyzer.py line 497). -/
def sjoin : List String → String
  | [] => ""
  | [b] => b
  | b :: c :: rest => b ++ SEPARATOR ++ sjoin (c :: rest)

structure HttpResponse where
  status : ℕ
  text : String

/-- Outcome of one provider call: the extracted reply text, an HTTP error
raised by raise_for_status, or the implicit None return of an exhausted
retry loop. -/
inductive CallResult where
  | success (text : String)
  | httpError (status : ℕ)
  | noneReturn

/-- Retry loop of call_anthropic (analyzer.py lines 184-193) over the
remaining attempt numbers, with the network abstracted by responses; the
second component collects the backoff sleeps performed, in seconds.  A 529
status at an attempt below 2 sleeps 15 times the attempt number plus one
and retries; otherwise raise_for_status raises on any status in 400..599,
and the reply text is returned on success. -/
def anthropic_loop (responses : ℕ → HttpResponse) :
    List ℕ → List ℕ → CallResult × List ℕ
  | [], sleeps => (.noneReturn, sleeps)
  | attempt :: rest, sleeps =>
    let r := responses attempt
    if r.status = 529 ∧ attempt < 2 then
      anthropic_loop responses rest (sleeps ++ [15 * (attempt + 1)])
    else if 400 ≤ r.status ∧ r.status < 600 then (.httpError r.status, sleeps)
    else (.success r.text, sleeps)

/-- call_anthropic (analyzer.py lines 164-193); the credential check and
the response body extraction are outside the model. -/
def call_anthropic (responses : ℕ → HttpResponse) : CallResult × List ℕ :=
  anthropic_loop responses [0, 1, 2] []

/-- call_gemini (analyzer.py lines 196-217): a single request with no
retry loop and no sleeps; raise_for_status raises on any status in
400..599. -/
def call_gemini (responses : ℕ → HttpResponse) : CallResult × List ℕ :=
  let r := responses 0
  if 400 ≤ r.status ∧ r.status < 600 then (.httpError r.status, [])
  else (.success r.text, [])

theorem lookupField_map_set_self (fields : List (String × Json)) (k : String)
    (v : Json) (hany : fields.any (fun kv => kv.1 = k) = true) :
    lookupField (fields.map (fun kv => if kv.1 = k then (k, v) else kv)) k =
      some v := by
  induction fields with
  | nil => simp at hany
  | cons kv rest ih =>
    by_cases hk : kv.1 = k
    · simp [lookupField, hk]
    · simp only [List.any_cons, Bool.or_eq_true, decide_eq_true_eq] at hany
      rcases hany with h | h
      · exact absurd h hk
      · simpa [lookupField, hk] using ih h

theorem lookupField_append_right (fields : List (String × Json)) (k : String)
    (v : Json) (hnone : lookupField fields k = none) :
    lookupField (fields ++ [(k, v)]) k = some v := by
  induction fields with
  | nil => simp [lookupField]
  | cons kv rest ih =>
    by_cases hk : kv.1 = k
    · simp [lookupField, hk] at hnone
    · simp only [lookupField, hk, if_false] at hnone ⊢
      exact ih hnone

theorem lookupField_none_of_any_false (fields : List (String × Json))
    (k : String) (hany : fields.any (fun kv => kv.1 = k) = false) :
    lookupField fields k = none := by
  induction fields with
  | nil => rfl
  | cons kv rest ih =>
    simp only [List.any_cons, Bool.or_eq_false_iff, decide_eq_false_iff_not]
      at hany
    simp [lookupField, hany.1, ih hany.2]

theorem lookupField_setField_self (fields : List (String × Json)) (k : String)
    (v : Json) : lookupField (setField fields k v) k = some v := by
  unfold setField
  by_cases hany : fields.any (fun kv => kv.1 = k) = true
  · simp only [hany, if_true]
    exact lookupField_map_set_self fields k v hany
  · simp only [Bool.not_eq_true] at hany
    simp only [hany, Bool.false_eq_true, if_false]
    exact lookupField_append_right fields k v
      (lookupField_none_of_any_false fields k hany)

theorem lookupField_map_set_ne (fields : List (String × Json))
    (k k2 : String) (v : Json) (hne : k2 ≠ k) :
    lookupField (fields.map (fun kv => if kv.1 = k then (k, v) else kv)) k2 =
      lookupField fields k2 := by
  induction fields with
  | nil => rfl
  | cons kv rest ih =>
    by_cases hk : kv.1 = k
    · have : kv.1 ≠ k2 := by rw [hk]; exact Ne.symm hne
      simp [lookupField, hk, Ne.symm hne, this, ih]
    · by_cases hk2 : kv.1 = k2 <;> simp [lookupField, hk, hk2, hne, ih]

theorem lookupField_append_ne (fields : List (String × Json))
    (k k2 : String) (v : Json) (hne : k2 ≠ k) :
    lookupField (fields ++ [(k, v)]) k2 = lookupField fields k2 := by
  induction fields with
  | nil => simp [lookupField, Ne.symm hne]
  | cons kv rest ih =>
    by_cases hk2 : kv.1 = k2 <;> simp [lookupField, hk2, ih]

theorem lookupField_setField_ne (fields : List (String × Json))
    (k k2 : String) (v : Json) (hne : k2 ≠ k) :
    lookupField (setField fields k v) k2 = lookupField fields k2 := by
  unfold setField
  by_cases hany : fields.any (fun kv => kv.1 = k) = true
  · simp only [hany, if_true]
    exact lookupField_map_set_ne fields k k2 v hne
  · simp only [Bool.not_eq_true] at hany
    simp only [hany, Bool.false_eq_true, if_false]
    exact lookupField_append_ne fields k k2 v hne

/-- C8: on a missing progress file and on a file whose JSON decode fails,
load_analyzed returns the empty record, with no evaluated ids, no results
and an empty last-run timestamp, instead of raising. -/
theorem C8_load_corrupt_returns_empty :
    load_analyzed none =
      Json.obj [("analyzed_ids", .arr []), ("results", .arr []),
                ("last_run", .str "")] ∧
    load_analyzed (some none) =
      Json.obj [("analyzed_ids", .arr []), ("results", .arr []),
                ("last_run", .str "")] := ⟨rfl, rfl⟩

/-- C7: for a persisted progress record (a stored JSON object), saving the
loaded record writes the same object except for the last_run key, which is
always stamped with the current time; and save_analyzed stamps the current
time unconditionally, in particular also when nothing new was analyzed. -/
theorem C7_save_load_roundtrip (st : StoredFile) (now : String)
    (fields : List (String × Json)) (h : load_analyzed st = Json.obj fields) :
    (save_analyzed (load_analyzed st) now =
        .ok (.obj (setField fields "last_run" (.str now))) ∧
      lookupField (setField fields "last_run" (.str now)) "last_run" =
        some (.str now) ∧
      ∀ k, k ≠ "last_run" →
        lookupField (setField fields "last_run" (.str now)) k =
          lookupField fields k) ∧
    ∀ fs : List (String × Json), ∀ now2 : String,
      save_analyzed (.obj fs) now2 =
        .ok (.obj (setField fs "last_run" (.str now2))) ∧
      lookupField (setField fs "last_run" (.str now2)) "last_run" =
        some (.str now2) := by
  refine ⟨⟨?_, lookupField_setField_self _ _ _, ?_⟩, ?_⟩
  · rw [h]; rfl
  · intro k hk
    exact lookupField_setField_ne _ _ _ _ hk
  · intro fs now2
    exact ⟨rfl, lookupField_setField_self _ _ _⟩

/-- Witness for C7 at a concrete stored record. -/
theorem C7_save_load_roundtrip_witness :
    load_analyzed (some (some (Json.obj [("analyzed_ids", .arr []),
        ("results", .arr []), ("last_run", .str "2025-01-01")]))) =
      Json.obj [("analyzed_ids", .arr []), ("results", .arr []),
        ("last_run", .str "2025-01-01")] ∧
    (save_analyzed (load_analyzed (some (some (Json.obj
        [("analyzed_ids", .arr []), ("results", .arr []),
         ("last_run", .str "2025-01-01")])))) "2025-06-01" =
        .ok (.obj (setField [("analyzed_ids", .arr []), ("results", .arr []),
          ("last_run", .str "2025-01-01")] "last_run" (.str "2025-06-01"))) ∧
      lookupField (setField [("analyzed_ids", .arr []), ("results", .arr []),
          ("last_run", .str "2025-01-01")] "last_run" (.str "2025-06-01"))
          "last_run" = some (.str "2025-06-01") ∧
      ∀ k, k ≠ "last_run" →
        lookupField (setField [("analyzed_ids", .arr []), ("results", .arr []),
            ("last_run", .str "2025-01-01")] "last_run" (.str "2025-06-01")) k =
          lookupField [("analyzed_ids", .arr []), ("results", .arr []),
            ("last_run", .str "2025-01-01")] k) :=
  ⟨rfl, (C7_save_load_roundtrip
    (some (some (Json.obj [("analyzed_ids", .arr []), ("results", .arr []),
      ("last_run", .str "2025-01-01")])))
    "2025-06-01"
    [("analyzed_ids", .arr []), ("results", .arr []),
     ("last_run", .str "2025-01-01")] rfl).1⟩

theorem count_str_eq_length_iff (target : String) (vs : List Json) :
    count_str target vs = vs.length ↔ ∀ v ∈ vs, v = Json.str target := by
  unfold count_str
  rw [List.countP_eq_length]
  constructor
  · intro h v hv
    have := h v hv
    cases v <;> simp_all
  · intro h v hv
    have := h v hv
    subst this
    simp

theorem count_str_eq_zero_iff (target : String) (vs : List Json) :
    count_str target vs = 0 ↔ Json.str target ∉ vs := by
  unfold count_str
  rw [List.countP_eq_zero]
  constructor
  · intro h hv
    have := h _ hv
    simp at this
  · intro h v hv
    cases v <;> simp_all
    rintro rfl
    exact h hv

/-- C2: the Decision Policy returns SKIP exactly when every persona voted
NO and at least one persona voted, or when the NO count is at least 3 with
no YES vote; in every other case it returns SEND, and in particular a vote
map with at least one YES vote never yields SKIP. -/
theorem C2_decision_policy (vs : List Json) :
    (decision_of vs = "SKIP" ↔
      ((vs ≠ [] ∧ ∀ v ∈ vs, v = Json.str "NO") ∨
       (3 ≤ count_str "NO" vs ∧ count_str "YES" vs = 0))) ∧
    (Json.str "YES" ∈ vs → decision_of vs = "SEND") := by
  constructor
  · constructor
    · intro hskip
      by_cases h1 : count_str "NO" vs = vs.length ∧ 0 < vs.length
      · exact Or.inl ⟨List.ne_nil_of_length_pos h1.2,
          (count_str_eq_length_iff "NO" vs).mp h1.1⟩
      · by_cases h2 : 3 ≤ count_str "NO" vs ∧ count_str "YES" vs = 0
        · exact Or.inr h2
        · simp [decision_of, h1, h2] at hskip
    · rintro (⟨hne, hall⟩ | ⟨h3, h0⟩)
      · have h1 : count_str "NO" vs = vs.length ∧ 0 < vs.length :=
          ⟨(count_str_eq_length_iff "NO" vs).mpr hall,
           List.length_pos.mpr hne⟩
        simp [decision_of, h1]
      · by_cases h1 : count_str "NO" vs = vs.length ∧ 0 < vs.length
        · simp [decision_of, h1]
        · simp [decision_of, h1, h3, h0]
  · intro hy
    have hyc : count_str "YES" vs ≠ 0 := fun h0 =>
      ((count_str_eq_zero_iff "YES" vs).mp h0) hy
    have h1 : ¬(count_str "NO" vs = vs.length ∧ 0 < vs.length) := by
      rintro ⟨hc, _⟩
      have := (count_str_eq_length_iff "NO" vs).mp hc _ hy
      simp at this
    have h2 : ¬(3 ≤ count_str "NO" vs ∧ count_str "YES" vs = 0) := by
      rintro ⟨_, h0⟩
      exact hyc h0
    simp [decision_of, h1, h2]

/-- Witness for C2: one YES among three NO votes yields SEND, and the
SKIP characterization holds at that input. -/
theorem C2_decision_policy_witness :
    Json.str "YES" ∈ [Json.str "NO", Json.str "NO", Json.str "NO",
      Json.str "YES"] ∧
    decision_of [Json.str "NO", Json.str "NO", Json.str "NO",
      Json.str "YES"] = "SEND" :=
  ⟨by simp,
   (C2_decision_policy [Json.str "NO", Json.str "NO", Json.str "NO",
      Json.str "YES"]).2 (by simp)⟩

/-- C10: a candidate whose scraped_at field is a nonempty string on which
the ISO timestamp parse fails is never excluded on recency grounds: it is
kept by the intake filter exactly when its id is not in the analyzed set. -/
theorem C10_invalid_timestamp_like_missing (parseIso : String → Option ℚ)
    (nowTs : ℚ) (props : List Property) (ids : List String) (p : Property)
    (hne : p.scraped_at ≠ "") (hbad : parseIso p.scraped_at = none) :
    p ∈ get_unanalyzed parseIso nowTs props ids ↔ p ∈ props ∧ p.id ∉ ids := by
  unfold get_unanalyzed
  rw [List.mem_filter]
  constructor
  · rintro ⟨hp, hcond⟩
    refine ⟨hp, ?_⟩
    intro hid
    simp [hid] at hcond
  · rintro ⟨hp, hid⟩
    refine ⟨hp, ?_⟩
    simp [hid, hne, hbad]

/-- Witness for C10: a candidate with an unparsable timestamp and an id
outside the analyzed set is eligible. -/
theorem C10_invalid_timestamp_like_missing_witness :
    (Property.mk "p1" "t" "a" "not-a-date").scraped_at ≠ "" ∧
    (fun _ : String => (none : Option ℚ))
        (Property.mk "p1" "t" "a" "not-a-date").scraped_at = none ∧
    (Property.mk "p1" "t" "a" "not-a-date" ∈
        get_unanalyzed (fun _ => none) 0 [Property.mk "p1" "t" "a" "not-a-date"]
          [] ↔
      Property.mk "p1" "t" "a" "not-a-date" ∈
          [Property.mk "p1" "t" "a" "not-a-date"] ∧
        (Property.mk "p1" "t" "a" "not-a-date").id ∉ ([] : List String)) :=
  ⟨by simp, rfl,
   C10_invalid_timestamp_like_missing (fun _ => none) 0
     [Property.mk "p1" "t" "a" "not-a-date"] []
     (Property.mk "p1" "t" "a" "not-a-date") (by simp) rfl⟩

/-- A provider that reports overload on the first request and succeeds on
every later one. -/
def overload_then_ok : ℕ → HttpResponse :=
  fun k => if k = 0 then ⟨529, "ok"⟩ else ⟨200, "ok"⟩

/-- Counterexample to C6: under the gemini provider an overloaded (529)
response is not retried at all, it raises immediately with no backoff
sleep, while the anthropic path on the very same response sequence retries
once after a 15 second sleep and succeeds.  The claim, which asserts the
retry policy for every configured provider, is therefore false for
gemini. -/
theorem C6_counterexample :
    call_gemini overload_then_ok = (.httpError 529, []) ∧
    call_anthropic overload_then_ok = (.success "ok", [15]) := by
  constructor
  · rfl
  · rfl

/-- C6 amended: under the anthropic provider a 529 response is retried up
to 2 additional times with backoff sleeps of 15 seconds times the attempt
number (15 s, then 30 s), any non-529 response ends the loop at once with
an error exactly for statuses 400..599, and a third consecutive 529
propagates as an error; under the gemini provider there is no retry layer
at all: the single response is returned, raising exactly for statuses
400..599, with no sleeps. -/
theorem C6_retry_behavior (responses : ℕ → HttpResponse) :
    (call_anthropic responses =
      if (responses 0).status = 529 then
        (if (responses 1).status = 529 then
          (if 400 ≤ (responses 2).status ∧ (responses 2).status < 600 then
            (.httpError (responses 2).status, [15, 30])
          else (.success (responses 2).text, [15, 30]))
        else if 400 ≤ (responses 1).status ∧ (responses 1).status < 600 then
          (.httpError (responses 1).status, [15])
        else (.success (responses 1).text, [15]))
      else if 400 ≤ (responses 0).status ∧ (responses 0).status < 600 then
        (.httpError (responses 0).status, [])
      else (.success (responses 0).text, [])) ∧
    (call_gemini responses =
      if 400 ≤ (responses 0).status ∧ (responses 0).status < 600 then
        (.httpError (responses 0).status, [])
      else (.success (responses 0).text, [])) := by
  constructor
  · unfold call_anthropic
    by_cases h0 : (responses 0).status = 529
    · by_cases h1 : (responses 1).status = 529
      · by_cases h2 : (responses 2).status = 529
        · simp [anthropic_loop, h0, h1, h2]
        · simp [anthropic_loop, h0, h1, h2]
      · simp [anthropic_loop, h0, h1]
    · simp [anthropic_loop, h0]
  · rfl

/-- Whether a JSON value is an object (a Python dict). -/
def Json.isObj : Json → Bool
  | .obj _ => true
  | _ => false

theorem vote_is_valid_spec (fields : List (String × Json))
    (h : vote_is_valid fields = true) :
    ∃ s, lookupField fields "vote" = some (.str s) ∧
      (s = "YES" ∨ s = "NO" ∨ s = "UNCERTAIN") := by
  unfold vote_is_valid at h
  split at h
  · exact ⟨"YES", by assumption, Or.inl rfl⟩
  · exact ⟨"NO", by assumption, Or.inr (Or.inl rfl)⟩
  · exact ⟨"UNCERTAIN", by assumption, Or.inr (Or.inr rfl)⟩
  · simp at h


theorem normalize_vote_enum (v w : Json) (h : normalize_vote v = .ok w) :
    vote_enum_ok w := by
  cases v with
  | obj fields =>
    simp only [normalize_vote] at h
    by_cases hv : vote_is_valid fields = true
    · rw [if_pos hv] at h
      cases h
      obtain ⟨s, hs, henum⟩ := vote_is_valid_spec fields hv
      exact ⟨fields, s, rfl, hs, henum⟩
    · rw [if_neg hv] at h
      cases h
      exact ⟨setField fields "vote" (.str "UNCERTAIN"), "UNCERTAIN", rfl,
        lookupField_setField_self fields "vote" (.str "UNCERTAIN"),
        Or.inr (Or.inr rfl)⟩
  | null => simp [normalize_vote] at h
  | bool b => simp [normalize_vote] at h
  | num q => simp [normalize_vote] at h
  | str s => simp [normalize_vote] at h
  | arr l => simp [normalize_vote] at h

theorem normalize_vote_conf (v w : Json) (h : normalize_vote v = .ok w) :
    pyConf w = pyConf v := by
  cases v with
  | obj fields =>
    simp only [normalize_vote] at h
    by_cases hv : vote_is_valid fields = true
    · rw [if_pos hv] at h
      cases h
      rfl
    · rw [if_neg hv] at h
      cases h
      simp only [pyConf]
      rw [lookupField_setField_ne fields "vote" "confidence" (.str "UNCERTAIN")
        (by decide)]
  | null => simp [normalize_vote] at h
  | bool b => simp [normalize_vote] at h
  | num q => simp [normalize_vote] at h
  | str s => simp [normalize_vote] at h
  | arr l => simp [normalize_vote] at h

theorem normalize_vote_ok_of_obj (v : Json) (h : v.isObj = true) :
    ∃ w, normalize_vote v = .ok w := by
  cases v with
  | obj fields =>
    by_cases hv : vote_is_valid fields = true <;> simp [normalize_vote, hv]
  | null => simp [Json.isObj] at h
  | bool b => simp [Json.isObj] at h
  | num q => simp [Json.isObj] at h
  | str s => simp [Json.isObj] at h
  | arr l => simp [Json.isObj] at h

theorem normalize_all_ok_of_obj (l : List Json)
    (h : ∀ v ∈ l, v.isObj = true) :
    ∃ r, normalize_all l = .ok r := by
  induction l with
  | nil => exact ⟨[], rfl⟩
  | cons v rest ih =>
    obtain ⟨w, hw⟩ := normalize_vote_ok_of_obj v (h v (by simp))
    obtain ⟨r, hr⟩ := ih (fun u hu => h u (by simp [hu]))
    exact ⟨w :: r, by simp only [normalize_all, hw, hr]⟩

theorem normalize_all_props (l r : List Json)
    (h : normalize_all l = .ok r) :
    r.length = l.length ∧
      ∀ w ∈ r, vote_enum_ok w ∧ ∃ v ∈ l, pyConf w = pyConf v := by
  induction l generalizing r with
  | nil =>
    cases h
    simp
  | cons v rest ih =>
    simp only [normalize_all] at h
    cases hv : normalize_vote v with
    | error e => rw [hv] at h; cases h
    | ok w =>
      rw [hv] at h
      cases hr : normalize_all rest with
      | error e => rw [hr] at h; cases h
      | ok ws =>
        rw [hr] at h
        cases h
        obtain ⟨hlen, hprops⟩ := ih ws hr
        refine ⟨by simp [hlen], ?_⟩
        intro u hu
        rcases List.mem_cons.mp hu with rfl | hu2
        · exact ⟨normalize_vote_enum v u hv, v, by simp,
            normalize_vote_conf v u hv⟩
        · obtain ⟨henum, v2, hv2, hconf⟩ := hprops u hu2
          exact ⟨henum, v2, by simp [hv2], hconf⟩

theorem vote_enum_ok_missing (i : ℕ) : vote_enum_ok (missing_vote i) :=
  ⟨_, "UNCERTAIN", rfl, rfl, Or.inr (Or.inr rfl)⟩

theorem vote_enum_ok_parse_fail (i : ℕ) : vote_enum_ok (parse_fail_vote i) :=
  ⟨_, "UNCERTAIN", rfl, rfl, Or.inr (Or.inr rfl)⟩

theorem vote_enum_ok_agent_error (i : ℕ) (e : String) :
    vote_enum_ok (agent_error_vote i e) :=
  ⟨_, "UNCERTAIN", rfl, rfl, Or.inr (Or.inr rfl)⟩

theorem pad_votes_length (r : List Json) (n : ℕ) :
    (pad_votes r n).length = max r.length n := by
  simp [pad_votes]
  omega

theorem parse_ok_length (decoded : Option Json) (n : ℕ) (vs : List Json)
    (h : parse_batch_votes decoded n = .ok vs) : vs.length = n := by
  cases decoded with
  | none =>
    cases h
    simp
  | some j =>
    simp only [parse_batch_votes] at h
    cases hm : normalize_all (coerced_list j) with
    | error e => rw [hm] at h; cases h
    | ok result =>
      rw [hm] at h
      cases h
      rw [List.length_take, pad_votes_length]
      omega

theorem mem_pad_votes (r : List Json) (n : ℕ) (v : Json)
    (h : v ∈ pad_votes r n) : v ∈ r ∨ ∃ i, v = missing_vote i := by
  rcases List.mem_append.mp h with h1 | h2
  · exact Or.inl h1
  · obtain ⟨k, _, hk⟩ := List.mem_map.mp h2
    exact Or.inr ⟨_, hk.symm⟩

theorem parse_ok_enum (decoded : Option Json) (n : ℕ) (vs : List Json)
    (h : parse_batch_votes decoded n = .ok vs) :
    ∀ v ∈ vs, vote_enum_ok v := by
  intro v hv
  cases decoded with
  | none =>
    cases h
    obtain ⟨i, _, hi⟩ := List.mem_map.mp hv
    exact hi ▸ vote_enum_ok_parse_fail _
  | some j =>
    simp only [parse_batch_votes] at h
    cases hm : normalize_all (coerced_list j) with
    | error e => rw [hm] at h; cases h
    | ok result =>
      rw [hm] at h
      cases h
      have hv2 := List.take_subset n _ hv
      rcases mem_pad_votes result n v hv2 with h1 | ⟨i, rfl⟩
      · exact ((normalize_all_props _ _ hm).2 v h1).1
      · exact vote_enum_ok_missing i

theorem parse_ok_of_obj (j : Json) (n : ℕ)
    (h : ∀ v ∈ coerced_list j, v.isObj = true) :
    ∃ vs, parse_batch_votes (some j) n = .ok vs := by
  obtain ⟨r, hr⟩ := normalize_all_ok_of_obj (coerced_list j) h
  exact ⟨(pad_votes r n).take n, by simp only [parse_batch_votes, hr]⟩

/-- Counterexample to C1: the reply text, for instance, of a bare JSON
array of numbers such as the raw string of one number in brackets decodes
successfully, so the JSONDecodeError handler is not taken; the element is
not a dict, v.get raises AttributeError, and the parser propagates the
exception instead of returning a vote list. -/
theorem C1_counterexample :
    parse_batch_votes (some (.arr [.num 1])) 1 = .error "AttributeError" := rfl

/-- C1 amended: whenever the decoded reply is a JSON object or a list of
JSON objects, or the decode failed altogether, parse_batch_votes raises no
exception and returns exactly the expected number of votes, each with a
verdict among the three enumerated values, and on total decode failure the
result is exactly the synthetic UNCERTAIN parse-failure votes; a reply
that decodes to non-object elements, however, raises AttributeError
(C1_counterexample). -/
theorem C1_parse_shape (decoded : Option Json) (n : ℕ)
    (hobj : ∀ j, decoded = some j → ∀ v ∈ coerced_list j, v.isObj = true) :
    ∃ vs, parse_batch_votes decoded n = .ok vs ∧ vs.length = n ∧
      (∀ v ∈ vs, vote_enum_ok v) ∧
      (decoded = none →
        vs = (List.range n).map (fun i => parse_fail_vote (i + 1))) := by
  cases decoded with
  | none =>
    refine ⟨_, rfl, by simp, parse_ok_enum none n _ rfl, fun _ => rfl⟩
  | some j =>
    obtain ⟨vs, hvs⟩ := parse_ok_of_obj j n (hobj j rfl)
    exact ⟨vs, hvs, parse_ok_length _ _ _ hvs, parse_ok_enum _ _ _ hvs,
      by simp⟩

/-- Witness for C1 at a one-object reply with an invalid verdict and an
expected count of 3. -/
theorem C1_parse_shape_witness :
    (∀ j, (some (Json.arr [Json.obj [("vote", Json.str "MAYBE")]]) :
        Option Json) = some j → ∀ v ∈ coerced_list j, v.isObj = true) ∧
    ∃ vs, parse_batch_votes
        (some (Json.arr [Json.obj [("vote", Json.str "MAYBE")]])) 3 =
          .ok vs ∧
      vs.length = 3 ∧ (∀ v ∈ vs, vote_enum_ok v) ∧
      ((some (Json.arr [Json.obj [("vote", Json.str "MAYBE")]]) :
          Option Json) = none →
        vs = (List.range 3).map (fun i => parse_fail_vote (i + 1))) := by
  have hobj : ∀ j, (some (Json.arr [Json.obj [("vote", Json.str "MAYBE")]]) :
      Option Json) = some j → ∀ v ∈ coerced_list j, v.isObj = true := by
    rintro j hj v hv
    cases hj
    simp only [coerced_list, List.mem_singleton] at hv
    subst hv
    rfl
  exact ⟨hobj, C1_parse_shape _ 3 hobj⟩

/-- A vote record whose confidence read succeeds with a value in the unit
interval. -/
def conf_in_unit (v : Json) : Prop :=
  ∃ q, pyConf v = .ok q ∧ 0 ≤ q ∧ q ≤ 1

theorem conf_in_unit_missing (i : ℕ) : conf_in_unit (missing_vote i) :=
  ⟨0, rfl, le_refl 0, by norm_num⟩

theorem conf_in_unit_parse_fail (i : ℕ) : conf_in_unit (parse_fail_vote i) :=
  ⟨0, rfl, le_refl 0, by norm_num⟩

theorem conf_in_unit_agent_error (i : ℕ) (e : String) :
    conf_in_unit (agent_error_vote i e) :=
  ⟨0, rfl, le_refl 0, by norm_num⟩

theorem confs_of_props (votes : List (String × Json)) (confs : List ℚ)
    (h : confs_of votes = .ok confs) :
    confs.length = votes.length ∧
      ∀ q ∈ confs, ∃ kv ∈ votes, pyConf kv.2 = .ok q := by
  induction votes generalizing confs with
  | nil =>
    cases h
    simp
  | cons kv rest ih =>
    simp only [confs_of] at h
    cases hc : pyConf kv.2 with
    | error e => rw [hc] at h; cases h
    | ok q =>
      rw [hc] at h
      cases hr : confs_of rest with
      | error e => rw [hr] at h; cases h
      | ok qs =>
        rw [hr] at h
        cases h
        obtain ⟨hlen, hprops⟩ := ih qs hr
        refine ⟨by simp [hlen], ?_⟩
        intro u hu
        rcases List.mem_cons.mp hu with rfl | hu2
        · exact ⟨kv, by simp, hc⟩
        · obtain ⟨kv2, hkv2, hc2⟩ := hprops u hu2
          exact ⟨kv2, by simp [hkv2], hc2⟩

theorem confs_of_ok (votes : List (String × Json))
    (h : ∀ kv ∈ votes, ∃ q, pyConf kv.2 = .ok q) :
    ∃ confs, confs_of votes = .ok confs := by
  induction votes with
  | nil => exact ⟨[], rfl⟩
  | cons kv rest ih =>
    obtain ⟨q, hq⟩ := h kv (by simp)
    obtain ⟨qs, hqs⟩ := ih (fun u hu => h u (by simp [hu]))
    exact ⟨q :: qs, by simp only [confs_of, hq, hqs]⟩

theorem vote_values_of_ok (votes : List (String × Json))
    (h : ∀ kv ∈ votes, ∃ u, pyIndex kv.2 "vote" = .ok u) :
    ∃ vs, vote_values_of votes = .ok vs := by
  induction votes with
  | nil => exact ⟨[], rfl⟩
  | cons kv rest ih =>
    obtain ⟨u, hu⟩ := h kv (by simp)
    obtain ⟨vs, hvs⟩ := ih (fun w hw => h w (by simp [hw]))
    exact ⟨u :: vs, by simp only [vote_values_of, hu, hvs]⟩

theorem pyIndex_ok_of_enum (v : Json) (h : vote_enum_ok v) :
    ∃ s, pyIndex v "vote" = .ok (.str s) ∧
      (s = "YES" ∨ s = "NO" ∨ s = "UNCERTAIN") := by
  obtain ⟨fields, s, rfl, hl, henum⟩ := h
  exact ⟨s, by simp only [pyIndex, hl], henum⟩

theorem sum_bounds_of_unit (confs : List ℚ)
    (h : ∀ q ∈ confs, 0 ≤ q ∧ q ≤ 1) :
    0 ≤ confs.sum ∧ confs.sum ≤ confs.length := by
  induction confs with
  | nil => simp
  | cons q rest ih =>
    obtain ⟨h0, h1⟩ := h q (by simp)
    obtain ⟨hs0, hs1⟩ := ih (fun u hu => h u (by simp [hu]))
    constructor
    · simp only [List.sum_cons]
      linarith
    · simp only [List.sum_cons, List.length_cons]
      push_cast
      linarith

theorem round2_bounds (q : ℚ) (h0 : 0 ≤ q) (h1 : q ≤ 1) :
    0 ≤ round2 q ∧ round2 q ≤ 1 := by
  unfold round2
  constructor
  · apply div_nonneg _ (by norm_num)
    have hq : (0 : ℚ) ≤ q * 100 + 1 / 2 := by linarith
    exact_mod_cast Int.floor_nonneg.mpr hq
  · rw [div_le_one (by norm_num)]
    have h2 : ⌊q * 100 + 1 / 2⌋ ≤ ⌊(201 / 2 : ℚ)⌋ :=
      Int.floor_le_floor (by linarith)
    have h3 : ⌊(201 / 2 : ℚ)⌋ = 100 := by
      rw [Int.floor_eq_iff]
      norm_num
    have : ⌊q * 100 + 1 / 2⌋ ≤ 100 := by omega
    exact_mod_cast this

/-- Counterexample to C9: the parser does not validate the confidence
field, only the verdict; a decoded vote carrying confidence 5 passes
through unchanged, and 5 lies outside the unit interval. -/
theorem C9_counterexample :
    parse_batch_votes
        (some (.arr [Json.obj [("vote", .str "YES"), ("confidence", .num 5)]]))
        1 =
      .ok [Json.obj [("vote", .str "YES"), ("confidence", .num 5)]] ∧
    pyConf (Json.obj [("vote", .str "YES"), ("confidence", .num 5)]) =
      .ok 5 ∧
    ¬ ((5 : ℚ) ≤ 1) := ⟨rfl, rfl, by norm_num⟩

/-- C9 amended: all synthetic votes carry confidence 0, and the parser
passes decoded confidences through unvalidated; hence whenever every
decoded element carries a confidence in the unit interval, every vote in
the parser output does too, and for every vote map whose confidences all
lie in the unit interval the aggregated mean confidence lies in the unit
interval.  Without that assumption an out-of-range confidence survives
into aggregation (C9_counterexample). -/
theorem C9_confidence_unit (decoded : Option Json) (n : ℕ) (vs : List Json)
    (hp : parse_batch_votes decoded n = .ok vs)
    (hconf : ∀ j, decoded = some j → ∀ v ∈ coerced_list j, conf_in_unit v) :
    (∀ v ∈ vs, conf_in_unit v) ∧
    ∀ now pid votes r, aggregate_one now pid votes = .ok r →
      (∀ kv ∈ votes, conf_in_unit kv.2) →
      0 ≤ r.confidence_avg ∧ r.confidence_avg ≤ 1 := by
  constructor
  · intro v hv
    cases decoded with
    | none =>
      cases hp
      obtain ⟨i, _, hi⟩ := List.mem_map.mp hv
      exact hi ▸ conf_in_unit_parse_fail _
    | some j =>
      simp only [parse_batch_votes] at hp
      cases hm : normalize_all (coerced_list j) with
      | error e => rw [hm] at hp; cases hp
      | ok result =>
        rw [hm] at hp
        cases hp
        have hv2 := List.take_subset n _ hv
        rcases mem_pad_votes result n v hv2 with h1 | ⟨i, rfl⟩
        · obtain ⟨_, u, hu, hcu⟩ := (normalize_all_props _ _ hm).2 v h1
          obtain ⟨q, hq, hq0, hq1⟩ := hconf j rfl u hu
          exact ⟨q, hcu ▸ hq, hq0, hq1⟩
        · exact conf_in_unit_missing i
  · intro now pid votes r hagg hunit
    simp only [aggregate_one] at hagg
    cases hvv : vote_values_of votes with
    | error e => rw [hvv] at hagg; cases hagg
    | ok vvs =>
      rw [hvv] at hagg
      cases hcs : confs_of votes with
      | error e => rw [hcs] at hagg; cases hagg
      | ok confs =>
        rw [hcs] at hagg
        cases hagg
        obtain ⟨hlen, hpt⟩ := confs_of_props votes confs hcs
        have hallunit : ∀ q ∈ confs, 0 ≤ q ∧ q ≤ 1 := by
          intro q hq
          obtain ⟨kv, hkv, hpc⟩ := hpt q hq
          obtain ⟨q2, hq2, hq0, hq1⟩ := hunit kv hkv
          rw [hpc] at hq2
          cases hq2
          exact ⟨hq0, hq1⟩
        obtain ⟨hs0, hs1⟩ := sum_bounds_of_unit confs hallunit
        have hm1 : (1 : ℚ) ≤ (max votes.length 1 : ℚ) := by
          simp
        have hm0 : (0 : ℚ) < (max votes.length 1 : ℚ) :=
          lt_of_lt_of_le zero_lt_one hm1
        have hsle : confs.sum ≤ (max votes.length 1 : ℚ) := by
          have : (confs.length : ℚ) = votes.length := by exact_mod_cast hlen
          calc confs.sum ≤ (confs.length : ℚ) := hs1
            _ = (votes.length : ℚ) := this
            _ ≤ _ := by simp
        exact round2_bounds _ (div_nonneg hs0 hm0.le)
          ((div_le_one hm0).mpr hsle)

/-- Witness for C9 at a one-object reply with confidence 0.9 and its
aggregation into a one-persona vote map. -/
theorem C9_confidence_unit_witness :
    parse_batch_votes
        (some (.arr [Json.obj [("vote", .str "YES"),
          ("confidence", .num (9 / 10))]])) 1 =
      .ok [Json.obj [("vote", .str "YES"), ("confidence", .num (9 / 10))]] ∧
    ((∀ v ∈ [Json.obj [("vote", .str "YES"),
        ("confidence", .num (9 / 10))]], conf_in_unit v) ∧
      ∀ now pid votes r, aggregate_one now pid votes = .ok r →
        (∀ kv ∈ votes, conf_in_unit kv.2) →
        0 ≤ r.confidence_avg ∧ r.confidence_avg ≤ 1) := by
  have hconf : ∀ j, (some (Json.arr [Json.obj [("vote", Json.str "YES"),
      ("confidence", Json.num (9 / 10))]]) : Option Json) = some j →
      ∀ v ∈ coerced_list j, conf_in_unit v := by
    rintro j hj v hv
    cases hj
    simp only [coerced_list, List.mem_singleton] at hv
    subst hv
    exact ⟨9 / 10, rfl, by norm_num, by norm_num⟩
  exact ⟨rfl, C9_confidence_unit
    (some (Json.arr [Json.obj [("vote", Json.str "YES"),
      ("confidence", Json.num (9 / 10))]])) 1
    [Json.obj [("vote", Json.str "YES"), ("confidence", Json.num (9 / 10))]]
    rfl hconf⟩

theorem getD_range_map {α : Type} (f : ℕ → α) (n i : ℕ) (d : α)
    (h : i < n) : ((List.range n).map f).getD i d = f i := by
  rw [List.getD_eq_getElem _ _ (by simp [h])]
  simp

theorem agent_column_length (n : ℕ) (o : CallOutcome) :
    (agent_column n o).length = n := by
  cases o with
  | error e => simp [agent_column]
  | ok d =>
    cases hp : parse_batch_votes d n with
    | error e => simp [agent_column, hp]
    | ok vs =>
      simp only [agent_column, hp]
      exact parse_ok_length d n vs hp

theorem agent_column_enum (n : ℕ) (o : CallOutcome) :
    ∀ v ∈ agent_column n o, vote_enum_ok v := by
  intro v hv
  cases o with
  | error e =>
    simp only [agent_column] at hv
    obtain ⟨i, _, hi⟩ := List.mem_map.mp hv
    exact hi ▸ vote_enum_ok_agent_error _ e
  | ok d =>
    cases hp : parse_batch_votes d n with
    | error e =>
      simp only [agent_column, hp] at hv
      obtain ⟨i, _, hi⟩ := List.mem_map.mp hv
      exact hi ▸ vote_enum_ok_agent_error _ e
    | ok vs =>
      simp only [agent_column, hp] at hv
      exact parse_ok_enum d n vs hp v hv

/-- The hypothesis that every successfully parsed reply carries numeric or
absent confidences; the synthetic votes satisfy it by construction, and
without it the Python aggregation would raise TypeError on the sum. -/
def oracle_conf_ok (oracle : Agent → CallOutcome) (n : ℕ) : Prop :=
  ∀ a d vs, oracle a = .ok d → parse_batch_votes d n = .ok vs →
    ∀ v ∈ vs, ∃ q, pyConf v = .ok q

theorem agent_column_conf (n : ℕ) (oracle : Agent → CallOutcome)
    (a : Agent) (h : oracle_conf_ok oracle n) :
    ∀ v ∈ agent_column n (oracle a), ∃ q, pyConf v = .ok q := by
  intro v hv
  cases ho : oracle a with
  | error e =>
    rw [ho] at hv
    simp only [agent_column] at hv
    obtain ⟨i, _, hi⟩ := List.mem_map.mp hv
    exact ⟨0, hi ▸ rfl⟩
  | ok d =>
    rw [ho] at hv
    cases hp : parse_batch_votes d n with
    | error e =>
      simp only [agent_column, hp] at hv
      obtain ⟨i, _, hi⟩ := List.mem_map.mp hv
      exact ⟨0, hi ▸ rfl⟩
    | ok vs =>
      simp only [agent_column, hp] at hv
      exact h a d vs ho hp v hv

theorem getD_mem_agent_column (n i : ℕ) (o : CallOutcome) (h : i < n) :
    (agent_column n o).getD i .null ∈ agent_column n o := by
  rw [List.getD_eq_getElem _ _ (by rw [agent_column_length]; exact h)]
  exact List.getElem_mem _

theorem vote_map_entry_props (n i : ℕ) (oracle : Agent → CallOutcome)
    (hi : i < n) (hc : oracle_conf_ok oracle n) :
    ∀ kv ∈ vote_map n oracle i,
      (∃ u, pyIndex kv.2 "vote" = .ok u) ∧ ∃ q, pyConf kv.2 = .ok q := by
  intro kv hkv
  obtain ⟨a, ha, rfl⟩ := List.mem_map.mp hkv
  have hmem := getD_mem_agent_column n i (oracle a) hi
  constructor
  · obtain ⟨s, hs, _⟩ :=
      pyIndex_ok_of_enum _ (agent_column_enum n (oracle a) _ hmem)
    exact ⟨.str s, hs⟩
  · exact agent_column_conf n oracle a hc _ hmem

theorem aggregate_one_ok (now pid : String) (votes : List (String × Json))
    (hv : ∀ kv ∈ votes, ∃ u, pyIndex kv.2 "vote" = .ok u)
    (hc : ∀ kv ∈ votes, ∃ q, pyConf kv.2 = .ok q) :
    ∃ r, aggregate_one now pid votes = .ok r ∧ r.votes = votes ∧
      r.property_id = pid := by
  obtain ⟨vs, hvs⟩ := vote_values_of_ok votes hv
  obtain ⟨cs, hcs⟩ := confs_of_ok votes hc
  exact ⟨{ property_id := pid, decision := decision_of vs, votes := votes,
           score := (vs.map score_of).sum, yes_count := count_str "YES" vs,
           no_count := count_str "NO" vs,
           confidence_avg := round2 (cs.sum / (max votes.length 1 : ℚ)),
           evaluated_at := now },
         by simp only [aggregate_one, hvs, hcs], rfl, rfl⟩

theorem build_results_ok (n : ℕ) (oracle : Agent → CallOutcome)
    (now : String) (hc : oracle_conf_ok oracle n) :
    ∀ rest : List Property, ∀ i : ℕ, i + rest.length ≤ n →
    ∃ rs, build_results n oracle now rest i = .ok rs ∧
      rs.length = rest.length ∧
      ∀ k, (hk : k < rs.length) →
        (rs.get ⟨k, hk⟩).votes = vote_map n oracle (i + k) ∧
        ∀ hk2 : k < rest.length,
          (rs.get ⟨k, hk⟩).property_id = (rest.get ⟨k, hk2⟩).id := by
  intro rest
  induction rest with
  | nil =>
    intro i _
    exact ⟨[], rfl, rfl, fun k hk => absurd hk (by simp)⟩
  | cons p rest2 ih =>
    intro i hle
    have hi : i < n := by simp at hle; omega
    obtain ⟨r, hr, hrv, hrp⟩ := aggregate_one_ok now p.id
      (vote_map n oracle i)
      (fun kv hkv => (vote_map_entry_props n i oracle hi hc kv hkv).1)
      (fun kv hkv => (vote_map_entry_props n i oracle hi hc kv hkv).2)
    obtain ⟨rs2, hrs2, hlen2, hprops2⟩ := ih (i + 1) (by simp at hle ⊢; omega)
    refine ⟨r :: rs2, ?_, by simp [hlen2], ?_⟩
    · simp only [build_results, hr, hrs2]
    · intro k hk
      cases k with
      | zero =>
        refine ⟨by simpa using hrv, fun hk2 => by simpa using hrp⟩
      | succ k2 =>
        have hk2 : k2 < rs2.length := by simpa using hk
        obtain ⟨hv2, hp2⟩ := hprops2 k2 hk2
        constructor
        · simpa [Nat.add_assoc, Nat.add_comm 1 k2] using hv2
        · intro hklt
          have : k2 < rest2.length := by simpa using hklt
          simpa using hp2 this

/-- Per-persona synthesized failure votes are UNCERTAIN with confidence
0 (analyzer.py lines 306-311). -/
theorem agent_error_vote_shape (i : ℕ) (e : String) :
    pyIndex (agent_error_vote i e) "vote" = .ok (.str "UNCERTAIN") ∧
    pyConf (agent_error_vote i e) = .ok 0 := ⟨rfl, rfl⟩

theorem lookup_vote_map_error (n i : ℕ) (oracle : Agent → CallOutcome)
    (a : Agent) (e : String) (ha : a ∈ AGENTS) (hi : i < n)
    (ho : oracle a = .error e) :
    lookupField (vote_map n oracle i) a.name =
      some (agent_error_vote (i + 1) e) := by
  fin_cases ha <;>
    simp [vote_map, AGENTS, lookupField, ho, agent_column,
      List.getElem?_range hi]

theorem vote_map_fst (n i : ℕ) (oracle : Agent → CallOutcome) :
    (vote_map n oracle i).map Prod.fst = AGENTS.map Agent.name := rfl

/-- C3: whenever every successfully parsed reply carries usable
confidences (synthesized votes always do), evaluate_batch completes with
one result per candidate; each result carries exactly one vote entry per
registered persona, keyed by the distinct persona names in registration
order, and for every persona whose call failed, with any exception, the
entry of every candidate is the synthesized UNCERTAIN vote with confidence
0 — so no failing persona, nor all of them failing, aborts the batch. -/
theorem C3_batch_vote_maps (batch : List Property)
    (oracle : Agent → CallOutcome) (now : String)
    (hc : oracle_conf_ok oracle batch.length) :
    ∃ results, evaluate_batch batch oracle now = .ok results ∧
      results.length = batch.length ∧
      (AGENTS.map Agent.name).Nodup ∧
      ∀ k, (hk : k < results.length) →
        (results.get ⟨k, hk⟩).votes.map Prod.fst = AGENTS.map Agent.name ∧
        (∀ hk2 : k < batch.length,
          (results.get ⟨k, hk⟩).property_id = (batch.get ⟨k, hk2⟩).id) ∧
        ∀ a ∈ AGENTS, ∀ e, oracle a = .error e →
          lookupField (results.get ⟨k, hk⟩).votes a.name =
            some (agent_error_vote (k + 1) e) ∧
          pyIndex (agent_error_vote (k + 1) e) "vote" =
            .ok (.str "UNCERTAIN") ∧
          pyConf (agent_error_vote (k + 1) e) = .ok 0 := by
  obtain ⟨rs, hrs, hlen, hprops⟩ :=
    build_results_ok batch.length oracle now hc batch 0 (by simp)
  refine ⟨rs, ?_, hlen, by decide, ?_⟩
  · simp only [evaluate_batch, hrs]
  · intro k hk
    obtain ⟨hv, hp⟩ := hprops k hk
    rw [Nat.zero_add] at hv
    refine ⟨by rw [hv]; exact vote_map_fst _ _ _, hp, ?_⟩
    intro a ha e ho
    have hkn : k < batch.length := by rw [← hlen]; exact hk
    refine ⟨?_, rfl, rfl⟩
    rw [hv]
    exact lookup_vote_map_error batch.length k oracle a e ha hkn ho

/-- Witness for C3: a one-candidate batch with every persona call
failing still completes, with a full vote map of synthesized votes. -/
theorem C3_batch_vote_maps_witness :
    oracle_conf_ok (fun _ => Except.error "boom") 1 ∧
    ∃ results,
      evaluate_batch [Property.mk "p1" "t" "a" ""]
          (fun _ => Except.error "boom") "T" = .ok results ∧
      results.length = 1 ∧
      (AGENTS.map Agent.name).Nodup ∧
      ∀ k, (hk : k < results.length) →
        (results.get ⟨k, hk⟩).votes.map Prod.fst = AGENTS.map Agent.name ∧
        (∀ hk2 : k < ([Property.mk "p1" "t" "a" ""] : List Property).length,
          (results.get ⟨k, hk⟩).property_id =
            (([Property.mk "p1" "t" "a" ""] : List Property).get
              ⟨k, hk2⟩).id) ∧
        ∀ a ∈ AGENTS, ∀ e,
          (fun _ : Agent => (Except.error "boom" : CallOutcome)) a =
            .error e →
          lookupField (results.get ⟨k, hk⟩).votes a.name =
            some (agent_error_vote (k + 1) e) ∧
          pyIndex (agent_error_vote (k + 1) e) "vote" =
            .ok (.str "UNCERTAIN") ∧
          pyConf (agent_error_vote (k + 1) e) = .ok 0 := by
  have hc : oracle_conf_ok (fun _ => Except.error "boom") 1 := by
    intro a d vs h
    simp at h
  exact ⟨hc, C3_batch_vote_maps [Property.mk "p1" "t" "a" ""]
    (fun _ => Except.error "boom") "T" hc⟩

theorem lower_append (s t : String) :
    lower (s ++ t) = lower s ++ lower t := by
  simp [lower]

theorem leadsWith_append (needle h t : List Char)
    (hl : leadsWith needle h = true) : leadsWith needle (h ++ t) = true := by
  induction needle generalizing h with
  | nil => rfl
  | cons a as ih =>
    cases h with
    | nil => simp [leadsWith] at hl
    | cons b bs =>
      simp only [leadsWith, Bool.and_eq_true, beq_iff_eq] at hl ⊢
      exact ⟨hl.1, ih bs hl.2⟩

theorem hasSub_nil (l : List Char) : hasSub [] l = true := by
  cases l with
  | nil => rfl
  | cons c rest => simp [hasSub, leadsWith]

theorem hasSub_append_left (needle x y : List Char)
    (h : hasSub needle x = true) : hasSub needle (x ++ y) = true := by
  induction x with
  | nil =>
    simp only [hasSub, List.isEmpty_iff] at h
    subst h
    exact hasSub_nil y
  | cons c x2 ih =>
    simp only [hasSub, Bool.or_eq_true] at h ⊢
    rcases h with h1 | h2
    · exact Or.inl (leadsWith_append needle (c :: x2) y h1)
    · exact Or.inr (ih h2)

theorem hasSub_append_right (needle x y : List Char)
    (h : hasSub needle y = true) : hasSub needle (x ++ y) = true := by
  induction x with
  | nil => exact h
  | cons c x2 ih =>
    simp only [List.cons_append, hasSub, Bool.or_eq_true]
    exact Or.inr ih

theorem addId_mem_self (ids : List String) (i : String) :
    i ∈ addId ids i := by
  unfold addId
  by_cases h : i ∈ ids <;> simp [h]

theorem addId_mem_mono (ids : List String) (i x : String) (h : x ∈ ids) :
    x ∈ addId ids i := by
  unfold addId
  by_cases h2 : i ∈ ids <;> simp [h2, h]

theorem mem_foldl_addId_mono {α : Type} (key : α → String) (l : List α) :
    ∀ ids x, x ∈ ids →
      x ∈ l.foldl (fun acc a => addId acc (key a)) ids := by
  induction l with
  | nil => intro ids x h; exact h
  | cons a rest ih =>
    intro ids x h
    exact ih _ x (addId_mem_mono ids (key a) x h)

theorem mem_foldl_addId_of_mem {α : Type} (key : α → String) (l : List α) :
    ∀ ids a, a ∈ l →
      key a ∈ l.foldl (fun acc b => addId acc (key b)) ids := by
  induction l with
  | nil => intro ids a h; simp at h
  | cons b rest ih =>
    intro ids a h
    rcases List.mem_cons.mp h with rfl | h2
    · exact mem_foldl_addId_mono key rest _ _ (addId_mem_self ids (key a))
    · exact ih _ a h2

theorem chunk5_subset : ∀ l : List Property, ∀ b ∈ chunk5 l, ∀ x ∈ b, x ∈ l := by
  intro l
  induction l using chunk5.induct with
  | case1 => intro b hb; simp [chunk5] at hb
  | case2 p rest ih =>
    intro b hb x hx
    rw [chunk5] at hb
    rcases List.mem_cons.mp hb with rfl | hb2
    · exact List.take_subset 5 _ hx
    · exact List.drop_subset 5 _ (ih b hb2 x hx)

theorem aggregate_one_pid (now pid : String) (votes : List (String × Json))
    (r : BatchResult) (h : aggregate_one now pid votes = .ok r) :
    r.property_id = pid := by
  simp only [aggregate_one] at h
  cases hv : vote_values_of votes with
  | error e => rw [hv] at h; cases h
  | ok vs =>
    rw [hv] at h
    cases hc : confs_of votes with
    | error e => rw [hc] at h; cases h
    | ok cs =>
      rw [hc] at h
      cases h
      rfl

theorem build_results_pids (n : ℕ) (oracle : Agent → CallOutcome)
    (now : String) :
    ∀ rest : List Property, ∀ i rs,
      build_results n oracle now rest i = .ok rs →
      ∀ r ∈ rs, ∃ q ∈ rest, r.property_id = q.id := by
  intro rest
  induction rest with
  | nil =>
    intro i rs h r hr
    cases h
    simp at hr
  | cons p rest2 ih =>
    intro i rs h r hr
    simp only [build_results] at h
    cases ha : aggregate_one now p.id (vote_map n oracle i) with
    | error e => rw [ha] at h; cases h
    | ok r0 =>
      rw [ha] at h
      cases hb : build_results n oracle now rest2 (i + 1) with
      | error e => rw [hb] at h; cases h
      | ok rs2 =>
        rw [hb] at h
        cases h
        rcases List.mem_cons.mp hr with rfl | hr2
        · exact ⟨p, by simp, aggregate_one_pid now p.id _ r ha⟩
        · obtain ⟨q, hq, hpid⟩ := ih (i + 1) rs2 hb r hr2
          exact ⟨q, by simp [hq], hpid⟩

theorem evaluate_batch_pids (b : List Property)
    (oracle : Agent → CallOutcome) (now : String) (rs : List BatchResult)
    (h : evaluate_batch b oracle now = .ok rs) :
    ∀ r ∈ rs, ∃ q ∈ b, r.property_id = q.id :=
  build_results_pids b.length oracle now b 0 rs h

theorem run_batches_ids_mono (oracle : ℕ → Agent → CallOutcome)
    (now : String) :
    ∀ bs : List (List Property), ∀ k ids res idsF resF,
      run_batches oracle now bs k ids res = .ok (idsF, resF) →
      ∀ x ∈ ids, x ∈ idsF := by
  intro bs
  induction bs with
  | nil =>
    intro k ids res idsF resF h x hx
    cases h
    exact hx
  | cons b bs2 ih =>
    intro k ids res idsF resF h x hx
    simp only [run_batches] at h
    cases he : evaluate_batch b (oracle k) now with
    | error e => rw [he] at h; cases h
    | ok rs =>
      rw [he] at h
      exact ih (k + 1) _ _ idsF resF h x
        (mem_foldl_addId_mono BatchResult.property_id rs ids x hx)

theorem run_batches_results (oracle : ℕ → Agent → CallOutcome)
    (now : String) :
    ∀ bs : List (List Property), ∀ k ids res idsF resF,
      run_batches oracle now bs k ids res = .ok (idsF, resF) →
      ∀ r ∈ resF, r ∈ res ∨ ∃ b ∈ bs, ∃ q ∈ b, r.property_id = q.id := by
  intro bs
  induction bs with
  | nil =>
    intro k ids res idsF resF h r hr
    cases h
    exact Or.inl hr
  | cons b bs2 ih =>
    intro k ids res idsF resF h r hr
    simp only [run_batches] at h
    cases he : evaluate_batch b (oracle k) now with
    | error e => rw [he] at h; cases h
    | ok rs =>
      rw [he] at h
      rcases ih (k + 1) _ _ idsF resF h r hr with h1 | ⟨b2, hb2, q, hq, hpid⟩
      · rcases List.mem_append.mp h1 with h2 | h3
        · exact Or.inl h2
        · obtain ⟨q, hq, hpid⟩ := evaluate_batch_pids b (oracle k) now rs he r h3
          exact Or.inr ⟨b, by simp, q, hq, hpid⟩
      · exact Or.inr ⟨b2, by simp [hb2], q, hq, hpid⟩

/-- C4: a candidate whose address or title contains a blacklisted zone
string, case-insensitively, is recognized by is_blacklisted; it is never
in the eligible worklist of any run (the intake filter composed with the
exclusion filter), so it can never reappear as eligible in a later run;
and in any completed run it is added to the in-memory evaluated-ids set
whenever it passed the recency intake, it is in no evaluation batch (so no
evaluator call covers it), and, when no other candidate shares its id, no
BatchResult of the run carries its id. -/
theorem C4_blacklist_excluded (zone : String) (p : Property)
    (hz : zone ∈ BLACKLISTED_ZONES)
    (hsub : hasSub (lower zone) (lower p.address) = true ∨
            hasSub (lower zone) (lower p.title) = true) :
    is_blacklisted p = true ∧
    (∀ parseIso nowTs props ids,
      p ∉ (get_unanalyzed parseIso nowTs props ids).filter
            (fun q => !(is_blacklisted q))) ∧
    (∀ properties ids0 results0 oracle parseIso nowTs now out,
      run_main properties ids0 results0 oracle parseIso nowTs now =
        .ok out →
      (p ∈ get_unanalyzed parseIso nowTs properties ids0 →
        p.id ∈ out.analyzed_ids) ∧
      (∀ b ∈ out.batches, p ∉ b) ∧
      ((∀ q ∈ properties, q.id = p.id → q = p) →
        ∀ r ∈ out.new_results, r.property_id ≠ p.id)) := by
  have hbl : is_blacklisted p = true := by
    unfold is_blacklisted
    rw [List.any_eq_true]
    refine ⟨zone, hz, ?_⟩
    rw [lower_append, lower_append]
    rcases hsub with h | h
    · exact hasSub_append_left _ _ (lower p.title)
        (hasSub_append_left _ _ (lower " ") h)
    · exact hasSub_append_right _ _ _ h
  refine ⟨hbl, ?_, ?_⟩
  · intro parseIso nowTs props ids hmem
    have := (List.mem_filter.mp hmem).2
    rw [hbl] at this
    simp at this
  · intro properties ids0 results0 oracle parseIso nowTs now out hrun
    simp only [run_main] at hrun
    split at hrun
    · cases hrun
      refine ⟨?_, by simp, by simp⟩
      intro hp
      exact mem_foldl_addId_of_mem Property.id _ ids0 p
        (List.mem_filter.mpr ⟨hp, hbl⟩)
    · split at hrun
      · cases hrun
      · next idsF resF heq =>
        cases hrun
        refine ⟨?_, ?_, ?_⟩
        · intro hp
          exact run_batches_ids_mono oracle now _ 0 _ [] idsF resF heq p.id
            (mem_foldl_addId_of_mem Property.id _ ids0 p
              (List.mem_filter.mpr ⟨hp, hbl⟩))
        · intro b hb hx
          have hpta := chunk5_subset _ b hb p hx
          have := (List.mem_filter.mp hpta).2
          rw [hbl] at this
          simp at this
        · intro huniq r hr heq2
          rcases run_batches_results oracle now _ 0 _ [] idsF resF heq r hr
            with h1 | ⟨b, hb, q, hq, hpid⟩
          · simp at h1
          · have hqta := chunk5_subset _ b hb q hq
            have hqta0 := (List.mem_filter.mp hqta).1
            have hqprops : q ∈ properties := by
              unfold get_unanalyzed at hqta0
              exact (List.mem_filter.mp hqta0).1
            have hqid : q.id = p.id := by rw [← hpid, heq2]
            have : q = p := huniq q hqprops hqid
            subst this
            have := (List.mem_filter.mp hqta).2
            rw [hbl] at this
            simp at this

/-- Witness for C4: a candidate whose address contains the zone Raval. -/
theorem C4_blacklist_excluded_witness :
    "Raval" ∈ BLACKLISTED_ZONES ∧
    hasSub (lower "Raval")
      (lower (Property.mk "p1" "flat" "Carrer del Raval 3" "").address) =
      true ∧
    is_blacklisted (Property.mk "p1" "flat" "Carrer del Raval 3" "") =
      true := by
  refine ⟨by decide, by decide, ?_⟩
  exact (C4_blacklist_excluded "Raval"
    (Property.mk "p1" "flat" "Carrer del Raval 3" "") (by decide)
    (Or.inl (by decide))).1

theorem py_split_go_no_sep (c0 : Char) (sep : List Char) :
    ∀ s acc : List Char, (∀ c ∈ s, c ≠ c0) →
      py_split_go (c0 :: sep) s acc = [acc ++ s] := by
  intro s
  induction s with
  | nil => intro acc _; simp [py_split_go]
  | cons c rest ih =>
    intro acc h
    have hne : c ≠ c0 := h c (by simp)
    have hlw : leadsWith (c0 :: sep) (c :: rest) = false := by
      simp only [leadsWith, Bool.and_eq_false_iff]
      exact Or.inl (beq_eq_false_iff_ne.mpr (Ne.symm hne))
    rw [py_split_go, dif_neg (by simp [hlw]), ih (acc ++ [c])
      (fun u hu => h u (by simp [hu]))]
    simp

theorem py_split_single (text : String) (h : ∀ c ∈ text.data, c ≠ '\n') :
    py_split SEPARATOR text = [text] := by
  unfold py_split
  have hsep : SEPARATOR.data = '\n' :: "\n━━━━━━━━━━━━\n\n".data := rfl
  rw [hsep, py_split_go_no_sep '\n' _ text.data [] h]
  rfl

/-- The oversized single item block of the counterexample: 4097 copies of
one character, with no separator characters inside. -/
def big_block : String := String.mk (List.replicate 4097 'a')

theorem big_block_length : big_block.length = 4097 := by
  show (List.replicate 4097 'a').length = 4097
  rw [List.length_replicate]

theorem big_block_ne_empty : big_block ≠ "" := by
  intro h
  have h2 := congrArg String.length h
  rw [big_block_length] at h2
  simp at h2


/-- The continuation header prepended to every split part after the first
before it is handed to the sink (analyzer.py lines 503-504). -/
def continuation_header (label : String) : String :=
  "🇪🇸 <b>" ++ label ++ "</b> (прод.)\n\n"

/-- The sink handoff of send_notifications (analyzer.py lines 500-506):
the first part of the split message is handed to the sink unchanged, and
every later part is handed with the continuation header prepended. -/
def add_continuation (label : String) : List String → List String
  | [] => []
  | part :: rest =>
    part :: rest.map (fun part2 => continuation_header label ++ part2)

theorem leadsWith_self_append (l t : List Char) :
    leadsWith l (l ++ t) = true := by
  induction l with
  | nil => rfl
  | cons a as ih => simp [leadsWith, ih]

theorem py_split_go_sep_boundary (c0 : Char) (sep : List Char) :
    ∀ x acc y : List Char, (∀ c ∈ x, c ≠ c0) →
      py_split_go (c0 :: sep) (x ++ (c0 :: sep) ++ y) acc =
        (acc ++ x) :: py_split_go (c0 :: sep) y [] := by
  intro x
  induction x with
  | nil =>
    intro acc y _
    simp only [List.nil_append, List.cons_append]
    have hlw : leadsWith (c0 :: sep) (c0 :: (sep ++ y)) = true := by
      have h2 := leadsWith_self_append (c0 :: sep) y
      simpa using h2
    have hdrop : (c0 :: (sep ++ y)).drop (c0 :: sep).length = y := by
      simp only [List.length_cons, List.drop_succ_cons]
      exact List.drop_left sep y
    rw [py_split_go, dif_pos ⟨List.cons_ne_nil c0 sep, hlw⟩, hdrop]
    simp
  | cons c x2 ih =>
    intro acc y h
    have hne : c ≠ c0 := h c (by simp)
    simp only [List.cons_append]
    have hlw : ∀ rest : List Char, leadsWith (c0 :: sep) (c :: rest) =
        false := by
      intro rest
      simp only [leadsWith, Bool.and_eq_false_iff]
      exact Or.inl (beq_eq_false_iff_ne.mpr (Ne.symm hne))
    rw [py_split_go, dif_neg (by simp [hlw]),
      ih (acc ++ [c]) y (fun u hu => h u (by simp [hu]))]
    simp

theorem py_split_two (b1 b2 : String) (h1 : ∀ c ∈ b1.data, c ≠ '\n')
    (h2 : ∀ c ∈ b2.data, c ≠ '\n') :
    py_split SEPARATOR (b1 ++ SEPARATOR ++ b2) = [b1, b2] := by
  unfold py_split
  have hdata : (b1 ++ SEPARATOR ++ b2).data =
      b1.data ++ SEPARATOR.data ++ b2.data := by simp
  have hsep : SEPARATOR.data = '\n' :: "\n━━━━━━━━━━━━\n\n".data := rfl
  rw [hdata, hsep, py_split_go_sep_boundary '\n' _ b1.data [] b2.data h1,
    py_split_go_no_sep '\n' _ b2.data [] h2]
  rfl

/-- A 4090-character item block of the counterexample, within the sink
maximum, with no separator characters inside. -/
def block_a : String := String.mk (List.replicate 4090 'a')

/-- A second 4090-character item block, within the sink maximum. -/
def block_b : String := String.mk (List.replicate 4090 'b')

theorem block_a_length : block_a.length = 4090 := by
  show (List.replicate 4090 'a').length = 4090
  rw [List.length_replicate]

theorem block_b_length : block_b.length = 4090 := by
  show (List.replicate 4090 'b').length = 4090
  rw [List.length_replicate]

theorem block_a_ne_empty : block_a ≠ "" := by
  intro h
  have h2 := congrArg String.length h
  rw [block_a_length] at h2
  simp at h2

theorem block_b_ne_empty : block_b ≠ "" := by
  intro h
  have h2 := congrArg String.length h
  rw [block_b_length] at h2
  simp at h2

theorem SEPARATOR_length : SEPARATOR.length = 16 := rfl

theorem block_a_chars : ∀ c ∈ block_a.data, c ≠ '\n' := by
  intro c hc
  have hc2 : c = 'a' := List.eq_of_mem_replicate hc
  subst hc2
  decide

theorem block_b_chars : ∀ c ∈ block_b.data, c ≠ '\n' := by
  intro c hc
  have hc2 : c = 'b' := List.eq_of_mem_replicate hc
  subst hc2
  decide

theorem two_block_text_length :
    (block_a ++ SEPARATOR ++ block_b).length = 8196 := by
  rw [String.length_append, String.length_append, block_a_length,
    block_b_length, SEPARATOR_length]

/-- The two-block report splits into one chunk per block. -/
theorem split_message_two_blocks :
    split_message (sjoin [block_a, block_b]) 4096 = [block_a, block_b] := by
  have hsjoin : sjoin [block_a, block_b] = block_a ++ SEPARATOR ++ block_b :=
    rfl
  unfold split_message
  rw [hsjoin, if_neg (by rw [two_block_text_length]; omega),
    py_split_two block_a block_b block_a_chars block_b_chars]
  simp [split_loop, block_a_ne_empty, block_b_ne_empty, block_a_length,
    block_b_length, SEPARATOR_length]

/-- Counterexample to C5, refuting the within-maximum-length part of the
claim at the sink handoff on two concrete reports.  First, a report that
is a single whole item block of 4097 characters is returned as one chunk
and handed to the sink unchanged at 4097 characters.  Second, even with
every item block within the maximum, two 4090-character blocks split into
two chunks, and the second is handed to the sink with the continuation
header prepended, at 4119 characters, over the 4096 maximum. -/
theorem C5_counterexample :
    (split_message big_block 4096 = [big_block] ∧
      add_continuation "Барселона" [big_block] = [big_block] ∧
      4096 < big_block.length) ∧
    (block_a.length ≤ 4096 ∧ block_b.length ≤ 4096 ∧
      split_message (sjoin [block_a, block_b]) 4096 = [block_a, block_b] ∧
      add_continuation "Барселона" [block_a, block_b] =
        [block_a, continuation_header "Барселона" ++ block_b] ∧
      4096 < (continuation_header "Барселона" ++ block_b).length) := by
  have hchars : ∀ c ∈ big_block.data, c ≠ '\n' := by
    intro c hc
    have hc2 : c = 'a' := List.eq_of_mem_replicate hc
    subst hc2
    decide
  have hch : (continuation_header "Барселона").length = 29 := rfl
  refine ⟨⟨?_, rfl, by rw [big_block_length]; omega⟩,
    by rw [block_a_length]; omega, by rw [block_b_length]; omega,
    split_message_two_blocks, rfl, ?_⟩
  · unfold split_message
    rw [if_neg (by rw [big_block_length]; omega),
      py_split_single big_block hchars]
    simp [split_loop, big_block_ne_empty]
  · rw [String.length_append, hch, block_b_length]
    omega

theorem str_append_assoc (a b c : String) : a ++ b ++ c = a ++ (b ++ c) := by
  apply String.ext
  simp

theorem sjoin_append_single : ∀ g : List String, g ≠ [] → ∀ p : String,
    sjoin (g ++ [p]) = sjoin g ++ SEPARATOR ++ p := by
  intro g
  induction g with
  | nil => intro h; exact absurd rfl h
  | cons b g2 ih =>
    intro _ p
    cases g2 with
    | nil => rfl
    | cons c g3 =>
      have ih2 := ih (by simp) p
      simp only [List.cons_append] at ih2 ⊢
      rw [show sjoin (b :: c :: (g3 ++ [p])) =
            b ++ SEPARATOR ++ sjoin (c :: (g3 ++ [p])) from rfl,
          show sjoin (b :: c :: g3) =
            b ++ SEPARATOR ++ sjoin (c :: g3) from rfl,
          ih2]
      simp [str_append_assoc]

theorem str_ne_empty_of_data_ne (s : String) (h : s.data ≠ []) : s ≠ "" := by
  intro h2
  exact h (congrArg String.data h2)

theorem str_data_ne_of_ne_empty (s : String) (h : s ≠ "") : s.data ≠ [] := by
  intro h2
  exact h (String.ext h2)

theorem sjoin_ne_empty (g : List String) (hg : g ≠ [])
    (hb : ∀ b ∈ g, b ≠ "") : sjoin g ≠ "" := by
  cases g with
  | nil => exact absurd rfl hg
  | cons b g2 =>
    have hbne : b.data ≠ [] := str_data_ne_of_ne_empty b (hb b (by simp))
    cases g2 with
    | nil => exact hb b (by simp)
    | cons c g3 =>
      apply str_ne_empty_of_data_ne
      show (b ++ SEPARATOR ++ sjoin (c :: g3)).data ≠ []
      simp [hbne]

theorem split_loop_le (maxLen : ℕ) :
    ∀ parts : List String, ∀ current : String,
      (∀ p ∈ parts, p.length ≤ maxLen) → current.length ≤ maxLen →
      ∀ chunk ∈ split_loop maxLen parts current, chunk.length ≤ maxLen := by
  intro parts
  induction parts with
  | nil =>
    intro current _ hc chunk hm
    simp only [split_loop] at hm
    by_cases hcur : current = ""
    · simp [hcur] at hm
    · rw [if_neg hcur] at hm
      simp at hm
      subst hm
      exact hc
  | cons part rest ih =>
    intro current h hc chunk hm
    simp only [split_loop] at hm
    by_cases hcur : current = ""
    · rw [if_pos hcur] at hm
      rw [if_neg (by simp [hcur])] at hm
      exact ih part (fun q hq => h q (by simp [hq])) (h part (by simp))
        chunk hm
    · rw [if_neg hcur] at hm
      by_cases hlen : maxLen < (current ++ SEPARATOR ++ part).length
      · rw [if_pos ⟨hlen, hcur⟩] at hm
        rcases List.mem_cons.mp hm with rfl | hm2
        · exact hc
        · exact ih part (fun q hq => h q (by simp [hq])) (h part (by simp))
            chunk hm2
      · rw [if_neg (by tauto)] at hm
        exact ih _ (fun q hq => h q (by simp [hq])) (le_of_not_lt hlen)
          chunk hm

theorem split_loop_groups (maxLen : ℕ) :
    ∀ parts : List String, ∀ g0 : List String,
      (∀ p ∈ parts, p ≠ "") → g0 ≠ [] → (∀ b ∈ g0, b ≠ "") →
      ∃ groups : List (List String), (∀ g ∈ groups, g ≠ []) ∧
        groups.join = g0 ++ parts ∧
        split_loop maxLen parts (sjoin g0) = groups.map sjoin := by
  intro parts
  induction parts with
  | nil =>
    intro g0 _ hg0 hb
    refine ⟨[g0], by simp [hg0], by simp, ?_⟩
    simp only [split_loop]
    rw [if_neg (sjoin_ne_empty g0 hg0 hb)]
    simp
  | cons part rest ih =>
    intro g0 hp hg0 hb
    have hcur : sjoin g0 ≠ "" := sjoin_ne_empty g0 hg0 hb
    have hpart : part ≠ "" := hp part (by simp)
    simp only [split_loop]
    rw [if_neg hcur, ← sjoin_append_single g0 hg0 part]
    by_cases hcond : maxLen < (sjoin (g0 ++ [part])).length ∧ sjoin g0 ≠ ""
    · rw [if_pos hcond]
      obtain ⟨groups, hgne, hjoin, heq⟩ := ih [part]
        (fun q hq => hp q (by simp [hq])) (by simp) (by simp [hpart])
      refine ⟨g0 :: groups, ?_, ?_, ?_⟩
      · intro g hg
        rcases List.mem_cons.mp hg with rfl | hg2
        · exact hg0
        · exact hgne g hg2
      · simp [hjoin]
      · have hsp : sjoin [part] = part := rfl
        rw [hsp] at heq
        simp [heq]
    · rw [if_neg hcond]
      obtain ⟨groups, hgne, hjoin, heq⟩ := ih (g0 ++ [part])
        (fun q hq => hp q (by simp [hq])) (by simp)
        (by
          intro b hb2
          rcases List.mem_append.mp hb2 with h1 | h2
          · exact hb b h1
          · simp at h2
            subst h2
            exact hpart)
      refine ⟨groups, hgne, ?_, heq⟩
      rw [hjoin]
      simp

theorem mem_add_continuation (label : String) (parts : List String)
    (m : String) (hm : m ∈ add_continuation label parts) :
    ∃ p ∈ parts, m = p ∨ m = continuation_header label ++ p := by
  cases parts with
  | nil => simp [add_continuation] at hm
  | cons p rest =>
    simp only [add_continuation] at hm
    rcases List.mem_cons.mp hm with rfl | hm2
    · exact ⟨m, by simp, Or.inl rfl⟩
    · obtain ⟨p2, hp2, hp2e⟩ := List.mem_map.mp hm2
      exact ⟨p2, by simp [hp2], Or.inr hp2e.symm⟩

theorem sink_whole_blocks (groups : List (List String)) (label m : String)
    (hm : m ∈ add_continuation label (groups.map sjoin)) :
    ∃ g ∈ groups, m = sjoin g ∨ m = continuation_header label ++ sjoin g := by
  obtain ⟨p, hp, hcase⟩ := mem_add_continuation label _ m hm
  obtain ⟨g, hg, rfl⟩ := List.mem_map.mp hp
  exact ⟨g, hg, hcase⟩

/-- C5 amended: for every report assembled by joining nonempty item blocks
with the fixed separator, provided the split of the joined text recovers
the blocks (that is, no block contains the separator), the splitter with
maximum length 4096 returns chunks that are each a join of whole
consecutive item blocks, and every message handed to the sink is such a
chunk, at most with the continuation header prepended — no item is ever
truncated mid-item, not even at the sink.  When every individual block
fits in 4096 characters, every chunk of the splitter output is within
4096; the within-maximum guarantee does not extend to the sink handoff: a
single block longer than 4096 passes through whole as an oversized chunk,
and the continuation header prepended to every chunk after the first can
push a near-limit chunk past 4096 (both in C5_counterexample). -/
theorem C5_split_whole_blocks (blocks : List String)
    (hne : blocks ≠ []) (hb : ∀ b ∈ blocks, b ≠ "")
    (hsplit : py_split SEPARATOR (sjoin blocks) = blocks) :
    ∃ groups : List (List String),
      (∀ g ∈ groups, g ≠ []) ∧ groups.join = blocks ∧
      split_message (sjoin blocks) 4096 = groups.map sjoin ∧
      ((∀ b ∈ blocks, b.length ≤ 4096) →
        ∀ chunk ∈ groups.map sjoin, chunk.length ≤ 4096) ∧
      ∀ label : String, ∀ m ∈ add_continuation label (groups.map sjoin),
        ∃ g ∈ groups, m = sjoin g ∨
          m = continuation_header label ++ sjoin g := by
  unfold split_message
  by_cases hlen : (sjoin blocks).length ≤ 4096
  · rw [if_pos hlen]
    refine ⟨[blocks], by simp [hne], by simp, by simp, ?_,
      fun label m hm => sink_whole_blocks [blocks] label m hm⟩
    intro _ chunk hc
    simp at hc
    subst hc
    exact hlen
  · rw [if_neg hlen, hsplit]
    cases blocks with
    | nil => exact absurd rfl hne
    | cons b bs =>
      have hbne : b ≠ "" := hb b (by simp)
      obtain ⟨groups, hgne, hjoin, heq⟩ := split_loop_groups 4096 bs [b]
        (fun q hq => hb q (by simp [hq])) (by simp) (by simp [hbne])
      have hsb : sjoin [b] = b := rfl
      rw [hsb] at heq
      have hstep : split_loop 4096 (b :: bs) "" = split_loop 4096 bs b := by
        simp [split_loop]
      refine ⟨groups, hgne, by simpa using hjoin, by rw [hstep, heq], ?_,
        fun label m hm => sink_whole_blocks groups label m hm⟩
      intro hble chunk hc
      rw [← heq] at hc
      exact split_loop_le 4096 bs b (fun q hq => hble q (by simp [hq]))
        (hble b (by simp)) chunk hc

/-- Witness for C5 at a single short block with no separator characters
inside. -/
theorem C5_split_whole_blocks_witness :
    (["aaa"] : List String) ≠ [] ∧ (∀ b ∈ (["aaa"] : List String), b ≠ "") ∧
    py_split SEPARATOR (sjoin ["aaa"]) = ["aaa"] ∧
    ∃ groups : List (List String),
      (∀ g ∈ groups, g ≠ []) ∧ groups.join = ["aaa"] ∧
      split_message (sjoin ["aaa"]) 4096 = groups.map sjoin ∧
      ((∀ b ∈ (["aaa"] : List String), b.length ≤ 4096) →
        ∀ chunk ∈ groups.map sjoin, chunk.length ≤ 4096) ∧
      ∀ label : String, ∀ m ∈ add_continuation label (groups.map sjoin),
        ∃ g ∈ groups, m = sjoin g ∨
          m = continuation_header label ++ sjoin g := by
  have hsplit : py_split SEPARATOR (sjoin ["aaa"]) = ["aaa"] := by
    have hs : sjoin ["aaa"] = "aaa" := rfl
    rw [hs]
    apply py_split_single
    decide
  exact ⟨by simp, by simp, hsplit,
    C5_split_whole_blocks ["aaa"] (by simp) (by simp) hsplit⟩
